import Mathlib

/-!
Shallow embedding of the contact-book program in `src/main.py`: phone and
birthday field validation, `Record` and `AddressBook` operations, and the
command handlers, with dates modelled at calendar-day granularity and
Python exceptions modelled as `Except` / `Option` error results.
-/

/-- A calendar date: the date part of a Python `datetime` value. -/
structure Date where
  year : Nat
  month : Nat
  day : Nat
deriving DecidableEq

/-- The Gregorian leap-year rule enforced by Python's `datetime`. -/
def isLeapYear (y : Nat) : Bool :=
  y % 4 == 0 && (y % 100 != 0 || y % 400 == 0)

/-- Number of days in month `m` of year `y`, as enforced by Python's `datetime`. -/
def daysInMonth (y m : Nat) : Nat :=
  if m = 2 then (if isLeapYear y then 29 else 28)
  else if m = 4 ∨ m = 6 ∨ m = 9 ∨ m = 11 then 30
  else 31

/-- Strict comparison of dates (`<` on Python `datetime`, at day granularity). -/
def dateLt (a b : Date) : Bool :=
  a.year.blt b.year || (a.year.beq b.year &&
    (a.month.blt b.month || (a.month.beq b.month && a.day.blt b.day)))

/-- Non-strict comparison of dates (`<=` on Python `datetime`, at day granularity). -/
def dateLe (a b : Date) : Bool :=
  a.year.blt b.year || (a.year.beq b.year &&
    (a.month.blt b.month || (a.month.beq b.month && a.day.ble b.day)))

/-- The day after `d` in the Gregorian calendar. -/
def nextDay (d : Date) : Date :=
  if d.day < daysInMonth d.year d.month then ⟨d.year, d.month, d.day + 1⟩
  else if d.month < 12 then ⟨d.year, d.month + 1, 1⟩
  else ⟨d.year + 1, 1, 1⟩

/-- Python's `d + timedelta(days=n)` at day granularity. -/
def addDays (d : Date) : Nat → Date
  | 0 => d
  | n + 1 => nextDay (addDays d n)

/-- Python's `date.replace(year=y)`: keeps month and day, and raises
`ValueError` when the resulting combination is not a real calendar date
(February 29 in a non-leap year). -/
def replaceYear (dt : Date) (y : Nat) : Except String Date :=
  if dt.day ≤ daysInMonth y dt.month then .ok ⟨y, dt.month, dt.day⟩
  else .error "day is out of range for month"

/-- A date that the `strptime`-based `Birthday` parser can actually produce. -/
def validDate (dt : Date) : Bool :=
  decide (1 ≤ dt.year) && decide (1 ≤ dt.month) && decide (dt.month ≤ 12) &&
    decide (1 ≤ dt.day) && decide (dt.day ≤ daysInMonth dt.year dt.month)

/-- The ASCII character for the decimal digit `n` (for `n < 10`). -/
def digitChar (n : Nat) : Char := Char.ofNat (48 + n)

/-- Reads a big-endian list of ASCII digit characters as a natural number. -/
def charsToNat (cs : List Char) : Nat :=
  cs.foldl (fun a c => 10 * a + (c.toNat - 48)) 0

/-- Fuel-driven decimal rendering of a natural number (big-endian digits). -/
def natToCharsAux : Nat → Nat → List Char
  | 0, _ => []
  | fuel + 1, n =>
    if n < 10 then [digitChar n]
    else natToCharsAux fuel (n / 10) ++ [digitChar (n % 10)]

/-- Decimal rendering of a natural number, as Python's `str` / `%Y` prints it. -/
def natToChars (n : Nat) : List Char := natToCharsAux (n + 1) n

/-- Two-digit zero-padded decimal rendering (`%d` / `%m` in `strftime`). -/
def pad2Chars (n : Nat) : List Char :=
  if n < 10 then ['0', digitChar n] else natToChars n

/-- Splits a character list at every `'.'`, like splitting on the literal dots
of the `"%d.%m.%Y"` format. -/
def splitDots : List Char → List (List Char)
  | [] => [[]]
  | c :: cs =>
    if c = '.' then [] :: splitDots cs
    else
      match splitDots cs with
      | [] => [[c]]
      | g :: gs => (c :: g) :: gs

/-- The shape accepted by `datetime.strptime(s, "%d.%m.%Y")` on the characters of `s`: two fields of
one or two digits, a year field of one to four digits, separated by literal
dots, forming a real calendar date with year at least 1. -/
def parseBirthdayChars (cs : List Char) : Option Date :=
  match splitDots cs with
  | [ds, ms, ys] =>
    if 1 ≤ ds.length ∧ ds.length ≤ 2 ∧ ds.all Char.isDigit = true ∧
       1 ≤ ms.length ∧ ms.length ≤ 2 ∧ ms.all Char.isDigit = true ∧
       1 ≤ ys.length ∧ ys.length ≤ 4 ∧ ys.all Char.isDigit = true then
      let d := charsToNat ds
      let m := charsToNat ms
      let y := charsToNat ys
      if 1 ≤ y ∧ 1 ≤ m ∧ m ≤ 12 ∧ 1 ≤ d ∧ d ≤ daysInMonth y m then
        some ⟨y, m, d⟩
      else none
    else none
  | _ => none

/-- The parse step of `Birthday.__init__`: `datetime.strptime(value, "%d.%m.%Y")`,
returning `none` where Python raises `ValueError`. -/
def parseBirthday (s : String) : Option Date := parseBirthdayChars s.data

/-- Formatting `datetime.strftime(value, "%d.%m.%Y")` as used by `Record.__str__` and
`show_birthday`. -/
def formatDate (dt : Date) : String :=
  String.mk (pad2Chars dt.day ++ '.' :: (pad2Chars dt.month ++ '.' :: natToChars dt.year))

/-- The validator `Phone.validate`: `re.fullmatch` against ten digits — exactly ten decimal
digit characters. -/
def validPhone (value : String) : Bool :=
  value.data.length == 10 && value.data.all Char.isDigit

/-- The constructor `Phone.__init__`: stores the raw string unchanged when `validate` accepts
it, and raises `ValueError("Phone number must be 10 digits.")` otherwise. -/
def Phone.init (value : String) : Except String String :=
  if validPhone value then .ok value else .error "Phone number must be 10 digits."

/-- One contact: a name, an optional parsed birthday, and the stored phone
strings in insertion order. -/
structure Record where
  name : String
  birthday : Option Date
  phones : List String
deriving DecidableEq

/-- Method `Record.add_phone`: validates through `Phone.__init__` and appends; on a
`ValueError` the record is unchanged and the message is reported. -/
def Record.add_phone (r : Record) (phone : String) : Record × Option String :=
  match Phone.init phone with
  | .ok p => ({ r with phones := r.phones ++ [p] }, none)
  | .error e => (r, some e)

/-- Method `Record.add_birthday`: parses through `Birthday.__init__` and overwrites the
stored birthday; on failure the record is unchanged and the re-raised
`ValueError` message is reported. -/
def Record.add_birthday (r : Record) (birthday : String) : Record × Option String :=
  match parseBirthday birthday with
  | some dt => ({ r with birthday := some dt }, none)
  | none => (r, some "Invalid date format. Use DD.MM.YYYY instead")

/-- Method `Record.remove_phone`: keeps exactly the phones whose value differs from
`phone`. -/
def Record.remove_phone (r : Record) (phone : String) : Record :=
  { r with phones := r.phones.filter (fun p => p != phone) }

/-- Method `Record.edit_phone`: `remove_phone(old)` followed by `add_phone(new)`. -/
def Record.edit_phone (r : Record) (old_phone new_phone : String) : Record × Option String :=
  Record.add_phone (Record.remove_phone r old_phone) new_phone

/-- Method `Record.find_phone`: the matching stored value, or the sentinel string. -/
def Record.find_phone (r : Record) (phone : String) : String :=
  if r.phones.contains phone then phone else "Phone not found."

/-- The `AddressBook`: the dict backing `UserDict`, as an insertion-ordered
association list from contact name to record. -/
abbrev AddressBook := List (String × Record)

/-- Method `AddressBook.add_record`, i.e. `self.data[record.name.value] = record` — dict
assignment overwrites in place when the key exists and appends otherwise. -/
def AddressBook.add_record (book : AddressBook) (record : Record) : AddressBook :=
  if book.any (fun p => p.1 == record.name) then
    book.map (fun p => if p.1 = record.name then (p.1, record) else p)
  else
    book ++ [(record.name, record)]

/-- Method `AddressBook.find`: `self.data.get(name, None)`. -/
def AddressBook.find (book : AddressBook) (name : String) : Option Record :=
  List.lookup name book

/-- Method `AddressBook.delete`: `del self.data[name]` when present, otherwise the
soft result string `"Contact not found."` (no exception). -/
def AddressBook.delete (book : AddressBook) (name : String) : AddressBook × Option String :=
  if book.any (fun p => p.1 == name) then
    (book.filter (fun p => p.1 != name), none)
  else
    (book, some "Contact not found.")

/-- The loop body of `AddressBook.get_upcoming_birthdays` over the stored
records: project each birthday onto `today`'s year via `replace`, roll forward
a year when the projection precedes `today`, and collect names inside the
inclusive window `[today, nw]`; a `ValueError` from `replace` aborts the whole
computation, as the exception does in Python. -/
def upcomingAux (today nw : Date) : List Record → Except String (List String)
  | [] => .ok []
  | r :: rest =>
    match r.birthday with
    | none => upcomingAux today nw rest
    | some bday =>
      match replaceYear bday today.year with
      | .error e => .error e
      | .ok d0 =>
        match (if dateLt d0 today then replaceYear bday (today.year + 1) else .ok d0) with
        | .error e => .error e
        | .ok proj =>
          match upcomingAux today nw rest with
          | .error e => .error e
          | .ok names =>
            .ok (if dateLe today proj && dateLe proj nw then r.name :: names else names)

/-- Method `AddressBook.get_upcoming_birthdays`, with `datetime.today()` passed
explicitly as the reference date `today` and `next_week = today + 7 days`. -/
def AddressBook.get_upcoming_birthdays (book : AddressBook) (today : Date) :
    Except String (List String) :=
  upcomingAux today (addDays today 7) (book.map Prod.snd)

/-- Models the in-place mutation of the `Record` object stored under `name`:
Python handlers mutate the record through the reference `find` returned, so the
book's entry for that key changes with it. -/
def updateRecord (book : AddressBook) (name : String) (r : Record) : AddressBook :=
  book.map (fun p => if p.1 = name then (p.1, r) else p)

/-- The `add_contact` handler under the `input_error` decorator: find or create
the record (inserting the fresh record into the book before the phone is
validated), then `add_phone`; a `ValueError` is caught and rendered as
`"Error: ..."` and the success message is skipped. -/
def add_contact (book : AddressBook) (name phone : String) : AddressBook × String :=
  match AddressBook.find book name with
  | none =>
    let r : Record := ⟨name, none, []⟩
    let book2 := AddressBook.add_record book r
    match Record.add_phone r phone with
    | (r2, none) => (updateRecord book2 name r2, "Contact added.")
    | (_, some e) => (book2, "Error: " ++ e)
  | some r =>
    match Record.add_phone r phone with
    | (r2, none) => (updateRecord book name r2, "Contact updated.")
    | (_, some e) => (book, "Error: " ++ e)

/-- The `change_phone` handler under `input_error`: `edit_phone` mutates the
found record even when the new phone is invalid, and the error message replaces
the success message. -/
def change_phone (book : AddressBook) (name old_phone new_phone : String) :
    AddressBook × String :=
  match AddressBook.find book name with
  | none => (book, "Contact not found.")
  | some r =>
    match Record.edit_phone r old_phone new_phone with
    | (r2, none) => (updateRecord book name r2, "Phone has been changed.")
    | (r2, some e) => (updateRecord book name r2, "Error: " ++ e)

/-- The `add_birthday` handler under `input_error`. -/
def add_birthday (book : AddressBook) (name birthday : String) : AddressBook × String :=
  match AddressBook.find book name with
  | none => (book, "Contact not found")
  | some r =>
    match Record.add_birthday r birthday with
    | (r2, none) => (updateRecord book name r2, "Birthday for " ++ name ++ " added")
    | (_, some e) => (book, "Error: " ++ e)

/-- The `upcoming_birthdays` handler under `input_error`, as the list of lines
it prints: the success branch prints the matches but falls through to the
fallback line, and a `ValueError` escaping the query is caught by the
decorator. -/
def upcoming_birthdays (book : AddressBook) (today : Date) : List String :=
  match AddressBook.get_upcoming_birthdays book today with
  | .error e => ["Error: " ++ e]
  | .ok upcoming =>
    (if upcoming = [] then []
     else ["Upcoming birthdays in the next week: " ++ String.intercalate ", " upcoming])
      ++ ["No upcoming birthdays in the next week."]

/-- Modelled from the spec: project a birthday onto the reference date's year,
and if the projected date already precedes the reference date, roll forward to
the next year. -/
def projectBirthday (bday today : Date) : Except String Date :=
  match replaceYear bday today.year with
  | .error e => .error e
  | .ok d0 => if dateLt d0 today then replaceYear bday (today.year + 1) else .ok d0

/-- Modelled from the spec: the names, in stored-record order, whose projected
birthday falls in the inclusive window `[today, today + 7 days]`. -/
def upcomingSpecNames (records : List Record) (today : Date) : List String :=
  records.filterMap (fun r =>
    match r.birthday with
    | none => none
    | some bday =>
      match projectBirthday bday today with
      | .error _ => none
      | .ok proj =>
        if dateLe today proj && dateLe proj (addDays today 7) then some r.name else none)

/-- Every phone stored in a record is `Phone.validate`-valid and its birthday,
when present, is a date the `Birthday` parser can produce. -/
def recordValid (r : Record) : Bool :=
  r.phones.all validPhone && r.birthday.all validDate

/-- Validity of every record stored in the book. -/
def bookValid (book : AddressBook) : Bool :=
  book.all (fun p => recordValid p.2)

/-- The mutating operations reachable from the command loop, plus
`AddressBook.delete`. -/
inductive Op where
  | addContact (name phone : String)
  | changePhone (name old_phone new_phone : String)
  | addBirthday (name birthday : String)
  | deleteContact (name : String)

/-- Applies one operation to the book, discarding the printed message. -/
def applyOp (book : AddressBook) : Op → AddressBook
  | .addContact name phone => (add_contact book name phone).1
  | .changePhone name old_phone new_phone => (change_phone book name old_phone new_phone).1
  | .addBirthday name birthday => (add_birthday book name birthday).1
  | .deleteContact name => (AddressBook.delete book name).1

/-- Runs a sequence of operations starting from the empty book. -/
def runOps (ops : List Op) : AddressBook := ops.foldl applyOp []

/-! ### Association-list lemmas for the dict-backed `AddressBook` -/

theorem lookup_cons (n k : String) (v : Record) (es : AddressBook) :
    List.lookup n ((k, v) :: es) = if n = k then some v else List.lookup n es := by
  by_cases h : n = k
  · subst h; simp [List.lookup]
  · have hb : (n == k) = false := by simp [h]
    simp [List.lookup, hb, h]

theorem lookup_map_overwrite (book : AddressBook) (r : Record)
    (h : book.any (fun p => p.1 == r.name) = true) :
    List.lookup r.name (book.map (fun p => if p.1 = r.name then (p.1, r) else p)) = some r := by
  induction book with
  | nil => simp at h
  | cons p book ih =>
    obtain ⟨k, v⟩ := p
    by_cases hp : k = r.name
    · subst hp
      simp [lookup_cons]
    · have h2 : book.any (fun p => p.1 == r.name) = true := by
        have hb : (k == r.name) = false := by simp [hp]
        simpa [hb] using h
      simp only [List.map_cons]
      rw [if_neg hp, lookup_cons, if_neg (Ne.symm hp)]
      exact ih h2

theorem lookup_map_overwrite_other (book : AddressBook) (r : Record) (n : String)
    (hn : n ≠ r.name) :
    List.lookup n (book.map (fun p => if p.1 = r.name then (p.1, r) else p)) =
      List.lookup n book := by
  induction book with
  | nil => rfl
  | cons p book ih =>
    obtain ⟨k, v⟩ := p
    by_cases hp : k = r.name
    · subst hp
      simp only [List.map_cons, if_pos]
      rw [lookup_cons, lookup_cons, if_neg hn, if_neg hn]
      exact ih
    · simp only [List.map_cons]
      rw [if_neg hp, lookup_cons, lookup_cons]
      by_cases hnk : n = k
      · simp [hnk]
      · rw [if_neg hnk, if_neg hnk]
        exact ih

theorem lookup_append_self (book : AddressBook) (r : Record)
    (h : AddressBook.find book r.name = none) :
    List.lookup r.name (book ++ [(r.name, r)]) = some r := by
  induction book with
  | nil => simp [lookup_cons]
  | cons p book ih =>
    obtain ⟨k, v⟩ := p
    rw [AddressBook.find, lookup_cons] at h
    by_cases hp : r.name = k
    · rw [if_pos hp] at h
      exact Option.noConfusion h
    · rw [if_neg hp] at h
      rw [List.cons_append, lookup_cons, if_neg hp]
      exact ih h

theorem lookup_append_other (book : AddressBook) (r : Record) (n : String)
    (hn : n ≠ r.name) :
    List.lookup n (book ++ [(r.name, r)]) = List.lookup n book := by
  induction book with
  | nil =>
    have hb : (n == r.name) = false := by simp [hn]
    simp [List.lookup, hb]
  | cons p book ih =>
    obtain ⟨k, v⟩ := p
    rw [List.cons_append, lookup_cons, lookup_cons]
    by_cases hnk : n = k
    · simp [hnk]
    · rw [if_neg hnk, if_neg hnk]
      exact ih

theorem any_key_false_iff_find_none (book : AddressBook) (name : String) :
    book.any (fun p => p.1 == name) = false ↔ AddressBook.find book name = none := by
  induction book with
  | nil => simp [AddressBook.find, List.lookup]
  | cons p book ih =>
    obtain ⟨k, v⟩ := p
    rw [AddressBook.find, lookup_cons]
    by_cases hp : name = k
    · subst hp
      simp
    · have hb : (k == name) = false := by simp [Ne.symm hp]
      rw [if_neg hp]
      simp only [List.any_cons, hb, Bool.false_or]
      exact ih

theorem find_add_record_self_overwrite (book : AddressBook) (r : Record) :
    AddressBook.find (AddressBook.add_record book r) r.name = some r := by
  unfold AddressBook.add_record
  cases ha : book.any (fun p => p.1 == r.name) with
  | true =>
    simp only [if_true]
    exact lookup_map_overwrite book r ha
  | false =>
    simp only [Bool.false_eq_true, if_false]
    exact lookup_append_self book r ((any_key_false_iff_find_none book r.name).mp ha)

theorem find_add_record_other (book : AddressBook) (r : Record) (n : String)
    (hn : n ≠ r.name) :
    AddressBook.find (AddressBook.add_record book r) n = AddressBook.find book n := by
  unfold AddressBook.add_record AddressBook.find
  cases ha : book.any (fun p => p.1 == r.name) with
  | true =>
    simp only [if_true]
    exact lookup_map_overwrite_other book r n hn
  | false =>
    simp only [Bool.false_eq_true, if_false]
    exact lookup_append_other book r n hn

theorem lookup_filter_self (book : AddressBook) (name : String) :
    List.lookup name (book.filter (fun p => p.1 != name)) = none := by
  induction book with
  | nil => rfl
  | cons p book ih =>
    obtain ⟨k, v⟩ := p
    by_cases hp : k = name
    · have h1 : (k != name) = false := by simp [hp]
      simp only [List.filter_cons, h1, Bool.false_eq_true, if_false]
      exact ih
    · have h1 : (k != name) = true := by simp [hp]
      simp only [List.filter_cons, h1, if_true]
      rw [lookup_cons, if_neg (Ne.symm hp)]
      exact ih

theorem lookup_filter_other (book : AddressBook) (name n : String) (hn : n ≠ name) :
    List.lookup n (book.filter (fun p => p.1 != name)) = List.lookup n book := by
  induction book with
  | nil => rfl
  | cons p book ih =>
    obtain ⟨k, v⟩ := p
    by_cases hp : k = name
    · have h1 : (k != name) = false := by simp [hp]
      simp only [List.filter_cons, h1, Bool.false_eq_true, if_false]
      rw [lookup_cons, if_neg (by rw [hp]; exact hn)]
      exact ih
    · have h1 : (k != name) = true := by simp [hp]
      simp only [List.filter_cons, h1, if_true]
      rw [lookup_cons, lookup_cons]
      by_cases hnk : n = k
      · simp [hnk]
      · rw [if_neg hnk, if_neg hnk]
        exact ih

/-- C6: `add_record` inserts or overwrites the entry keyed by the record's name
with last-write-wins semantics, leaves entries under other names unchanged, and
adding two records with the same name to the empty book leaves exactly one
entry, holding the second record. -/
theorem add_record_c6 :
    (∀ (book : AddressBook) (r : Record),
      AddressBook.find (AddressBook.add_record book r) r.name = some r
      ∧ ∀ n, n ≠ r.name →
          AddressBook.find (AddressBook.add_record book r) n = AddressBook.find book n)
    ∧ (∀ r1 r2 : Record, r1.name = r2.name →
        (AddressBook.add_record (AddressBook.add_record [] r1) r2).length = 1
        ∧ AddressBook.find (AddressBook.add_record (AddressBook.add_record [] r1) r2) r2.name
            = some r2) := by
  constructor
  · intro book r
    exact ⟨find_add_record_self_overwrite book r, fun n hn => find_add_record_other book r n hn⟩
  · intro r1 r2 h
    have h1 : AddressBook.add_record [] r1 = [(r1.name, r1)] := by
      simp [AddressBook.add_record]
    have h2 : AddressBook.add_record [(r1.name, r1)] r2 = [(r1.name, r2)] := by
      simp [AddressBook.add_record, h]
    constructor
    · rw [h1, h2]
      rfl
    · rw [h1, h2, AddressBook.find, lookup_cons, if_pos h.symm]

/-- Witness for C6 at concrete records sharing the name `"A"` and at a book
holding `"B"`. -/
theorem add_record_c6_witness :
    ((AddressBook.add_record (AddressBook.add_record []
        ⟨"A", none, []⟩) ⟨"A", none, ["0000000000"]⟩).length = 1
      ∧ AddressBook.find (AddressBook.add_record (AddressBook.add_record []
          ⟨"A", none, []⟩) ⟨"A", none, ["0000000000"]⟩) "A" = some ⟨"A", none, ["0000000000"]⟩)
    ∧ AddressBook.find (AddressBook.add_record [("B", ⟨"B", none, []⟩)]
        ⟨"A", none, []⟩) "B" = AddressBook.find [("B", ⟨"B", none, []⟩)] "B" := by
  refine ⟨add_record_c6.2 ⟨"A", none, []⟩ ⟨"A", none, ["0000000000"]⟩ rfl, ?_⟩
  exact (add_record_c6.1 [("B", ⟨"B", none, []⟩)] ⟨"A", none, []⟩).2 "B" (by decide)

/-- C7: `delete(name)` removes the entry when present (leaving other names'
entries unchanged and reporting no error), and on an absent name it returns the
soft result `"Contact not found."` with the book unchanged, raising no
exception. -/
theorem delete_c7 :
    ∀ (book : AddressBook) (name : String),
      (AddressBook.find book name = none →
        AddressBook.delete book name = (book, some "Contact not found."))
      ∧ (∀ r, AddressBook.find book name = some r →
          (AddressBook.delete book name).2 = none
          ∧ AddressBook.find (AddressBook.delete book name).1 name = none
          ∧ ∀ n, n ≠ name →
              AddressBook.find (AddressBook.delete book name).1 n = AddressBook.find book n) := by
  intro book name
  constructor
  · intro h
    have ha : book.any (fun p => p.1 == name) = false :=
      (any_key_false_iff_find_none book name).mpr h
    unfold AddressBook.delete
    rw [ha]
    simp
  · intro r hr
    have ha : book.any (fun p => p.1 == name) = true := by
      cases hc : book.any (fun p => p.1 == name) with
      | true => rfl
      | false =>
        rw [(any_key_false_iff_find_none book name).mp hc] at hr
        exact Option.noConfusion hr
    have hd : AddressBook.delete book name = (book.filter (fun p => p.1 != name), none) := by
      simp [AddressBook.delete, ha]
    rw [hd]
    exact ⟨rfl, lookup_filter_self book name, fun n hn => lookup_filter_other book name n hn⟩

/-- Witness for C7: deleting `"Bob"` from the empty book is a soft failure, and
deleting `"Bob"` from a book holding him removes exactly his entry. -/
theorem delete_c7_witness :
    AddressBook.delete [] "Bob" = ([], some "Contact not found.")
    ∧ ((AddressBook.delete [("Bob", ⟨"Bob", none, []⟩)] "Bob").2 = none
        ∧ AddressBook.find (AddressBook.delete [("Bob", ⟨"Bob", none, []⟩)] "Bob").1 "Bob" = none
        ∧ AddressBook.find (AddressBook.delete [("Bob", ⟨"Bob", none, []⟩)] "Bob").1 "Al"
            = AddressBook.find [("Bob", ⟨"Bob", none, []⟩)] "Al") := by
  refine ⟨(delete_c7 [] "Bob").1 rfl, ?_⟩
  have h := (delete_c7 [("Bob", ⟨"Bob", none, []⟩)] "Bob").2 ⟨"Bob", none, []⟩ rfl
  exact ⟨h.1, h.2.1, h.2.2 "Al" (by decide)⟩

/-- C3: `Phone` construction fails with the format error exactly when the input
is not a string of exactly ten decimal-digit characters, and on success it
stores the input string unchanged. -/
theorem phone_init_c3 :
    ∀ value : String,
      ((∃ e, Phone.init value = .error e) ↔
        ¬ (value.data.length = 10 ∧ ∀ c ∈ value.data, c.isDigit = true))
      ∧ (validPhone value = true → Phone.init value = .ok value) := by
  intro value
  have hiff : validPhone value = true ↔
      (value.data.length = 10 ∧ ∀ c ∈ value.data, c.isDigit = true) := by
    simp [validPhone, List.all_eq_true]
  constructor
  · cases hv : validPhone value with
    | true =>
      constructor
      · rintro ⟨e, he⟩
        simp [Phone.init, hv] at he
      · intro h
        exact absurd (hiff.mp hv) h
    | false =>
      constructor
      · intro _ hcontra
        rw [hiff.mpr hcontra] at hv
        exact Bool.noConfusion hv
      · intro _
        exact ⟨"Phone number must be 10 digits.", by simp [Phone.init, hv]⟩
  · intro h
    simp [Phone.init, h]

/-- Witness for C3: the ten-digit string `"1234567890"` is accepted and stored
unchanged, and `"123"` is rejected with an error. -/
theorem phone_init_c3_witness :
    (validPhone "1234567890" = true ∧ Phone.init "1234567890" = .ok "1234567890")
    ∧ Phone.init "123" = .error "Phone number must be 10 digits." := by
  refine ⟨⟨by decide, (phone_init_c3 "1234567890").2 (by decide)⟩, ?_⟩
  obtain ⟨e, he⟩ := (phone_init_c3 "123").1.mpr (by decide)
  have he2 : (Except.error e : Except String String)
      = .error "Phone number must be 10 digits." := by
    rw [← he]
    rfl
  exact he.trans he2

/-- C5: `edit_phone(old, new)` is exactly `remove_phone(old)` followed by
`add_phone(new)`; when `new` is invalid the phones equal to `old` are removed
anyway and the call reports an error (no atomicity). -/
theorem edit_phone_c5 :
    (∀ (r : Record) (old_phone new_phone : String),
      Record.edit_phone r old_phone new_phone
        = Record.add_phone (Record.remove_phone r old_phone) new_phone)
    ∧ (∀ (r : Record) (old_phone new_phone : String), validPhone new_phone = false →
        (Record.edit_phone r old_phone new_phone).1.phones
            = r.phones.filter (fun p => p != old_phone)
          ∧ (Record.edit_phone r old_phone new_phone).2.isSome = true) := by
  constructor
  · intro r old_phone new_phone
    rfl
  · intro r old_phone new_phone h
    constructor
    · simp [Record.edit_phone, Record.add_phone, Phone.init, h, Record.remove_phone]
    · simp [Record.edit_phone, Record.add_phone, Phone.init, h]

/-- Witness for C5: editing the only stored phone to the invalid `"12"` removes
it and reports an error. -/
theorem edit_phone_c5_witness :
    validPhone "12" = false
    ∧ (Record.edit_phone ⟨"A", none, ["1234567890"]⟩ "1234567890" "12").1.phones
        = (["1234567890"] : List String).filter (fun p => p != "1234567890")
    ∧ (Record.edit_phone ⟨"A", none, ["1234567890"]⟩ "1234567890" "12").2.isSome = true := by
  have h := edit_phone_c5.2 ⟨"A", none, ["1234567890"]⟩ "1234567890" "12" (by decide)
  exact ⟨by decide, h.1, h.2⟩

/-- C9: calling the `add_contact` handler with a fresh name and an invalid phone
inserts the record before phone validation, so after the caught error the book
holds a record for that name with no phones, and the handler reports the phone
format error. -/
theorem add_contact_c9 (book : AddressBook) (name phone : String)
    (h1 : AddressBook.find book name = none) (h2 : validPhone phone = false) :
    AddressBook.find (add_contact book name phone).1 name = some ⟨name, none, []⟩
      ∧ (add_contact book name phone).2 = "Error: Phone number must be 10 digits." := by
  have hstep : add_contact book name phone
      = (AddressBook.add_record book ⟨name, none, []⟩,
          "Error: " ++ "Phone number must be 10 digits.") := by
    simp [add_contact, h1, Record.add_phone, Phone.init, h2]
  rw [hstep]
  exact ⟨find_add_record_self_overwrite book ⟨name, none, []⟩, rfl⟩

/-- Witness for C9: adding `"John"` with phone `"123"` to the empty book leaves
a phoneless record for `"John"`. -/
theorem add_contact_c9_witness :
    AddressBook.find [] "John" = none ∧ validPhone "123" = false
    ∧ (AddressBook.find (add_contact [] "John" "123").1 "John" = some ⟨"John", none, []⟩
        ∧ (add_contact [] "John" "123").2 = "Error: Phone number must be 10 digits.") := by
  exact ⟨rfl, by decide, add_contact_c9 [] "John" "123" rfl (by decide)⟩

/-! ### The upcoming-birthdays query -/

theorem upcomingAux_ok (today nw : Date) :
    ∀ (records : List Record) (l : List String),
      upcomingAux today nw records = .ok l →
      l = records.filterMap (fun r =>
        match r.birthday with
        | none => none
        | some bday =>
          match projectBirthday bday today with
          | .error _ => none
          | .ok proj => if dateLe today proj && dateLe proj nw then some r.name else none) := by
  intro records
  induction records with
  | nil =>
    intro l h
    simp only [upcomingAux] at h
    cases h
    rfl
  | cons r rest ih =>
    intro l h
    rw [upcomingAux] at h
    rw [List.filterMap_cons]
    split at h
    · exact ih l h
    · rename_i bday hb
      split at h
      · exact Except.noConfusion h
      · rename_i d0 hry
        simp only [projectBirthday, hry]
        split at h
        · exact Except.noConfusion h
        · rename_i proj hproj
          split at h
          · exact Except.noConfusion h
          · rename_i names hrec
            cases h
            rw [ih names hrec]
            cases hw : dateLe today proj && dateLe proj nw with
            | true => simp [hw, projectBirthday]
            | false => simp [hw, projectBirthday]

/-- C1: whenever the query returns a list, that list holds exactly the names
(in stored order) of the records whose birthday, projected onto the reference
year and rolled forward when it precedes the reference date, lies in the
inclusive window `[today, today + 7 days]`; concretely, a birthday at
`ref + 3 days` is included, one at `ref + 8 days` is excluded, and one at
`ref - 1 day` projects to the next year and is excluded. -/
theorem upcoming_c1 :
    (∀ (book : AddressBook) (today : Date) (l : List String),
      AddressBook.get_upcoming_birthdays book today = .ok l →
      l = upcomingSpecNames (book.map Prod.snd) today)
    ∧ AddressBook.get_upcoming_birthdays
        [("Alice", ⟨"Alice", some ⟨1990, 3, 13⟩, []⟩)] ⟨2025, 3, 10⟩ = .ok ["Alice"]
    ∧ AddressBook.get_upcoming_birthdays
        [("Bob", ⟨"Bob", some ⟨1990, 3, 18⟩, []⟩)] ⟨2025, 3, 10⟩ = .ok []
    ∧ projectBirthday ⟨1990, 3, 9⟩ ⟨2025, 3, 10⟩ = .ok ⟨2026, 3, 9⟩
    ∧ AddressBook.get_upcoming_birthdays
        [("Carol", ⟨"Carol", some ⟨1990, 3, 9⟩, []⟩)] ⟨2025, 3, 10⟩ = .ok [] := by
  refine ⟨?_, rfl, rfl, rfl, rfl⟩
  intro book today l h
  unfold AddressBook.get_upcoming_birthdays at h
  unfold upcomingSpecNames
  exact upcomingAux_ok today (addDays today 7) (book.map Prod.snd) l h

/-- Witness for C1: the general characterization applied to a one-record book
whose birthday lies three days past the reference date. -/
theorem upcoming_c1_witness :
    ["Alice"] = upcomingSpecNames
      ([("Alice", (⟨"Alice", some ⟨1990, 3, 13⟩, []⟩ : Record))].map Prod.snd) ⟨2025, 3, 10⟩ :=
  upcoming_c1.1 [("Alice", ⟨"Alice", some ⟨1990, 3, 13⟩, []⟩)] ⟨2025, 3, 10⟩ ["Alice"] rfl

/-- C2: whenever the query returns normally, the `birthdays` command emits the
fallback line `"No upcoming birthdays in the next week."`, and when the query
result is non-empty it prints the matches line first and the fallback line
anyway (the success branch does not halt). -/
theorem upcoming_birthdays_c2 :
    ∀ (book : AddressBook) (today : Date) (l : List String),
      AddressBook.get_upcoming_birthdays book today = .ok l →
      "No upcoming birthdays in the next week." ∈ upcoming_birthdays book today
      ∧ (l ≠ [] →
          upcoming_birthdays book today
            = ["Upcoming birthdays in the next week: " ++ String.intercalate ", " l,
               "No upcoming birthdays in the next week."]) := by
  intro book today l h
  unfold upcoming_birthdays
  rw [h]
  constructor
  · by_cases hl : l = []
    · simp [hl]
    · simp [hl]
  · intro hl
    simp [hl]

/-- Witness for C2: with one matching record the command prints the match line
and still prints the fallback line. -/
theorem upcoming_birthdays_c2_witness :
    "No upcoming birthdays in the next week."
        ∈ upcoming_birthdays [("Alice", ⟨"Alice", some ⟨1990, 3, 13⟩, []⟩)] ⟨2025, 3, 10⟩
    ∧ upcoming_birthdays [("Alice", ⟨"Alice", some ⟨1990, 3, 13⟩, []⟩)] ⟨2025, 3, 10⟩
        = ["Upcoming birthdays in the next week: Alice",
           "No upcoming birthdays in the next week."] := by
  have h := upcoming_birthdays_c2
    [("Alice", ⟨"Alice", some ⟨1990, 3, 13⟩, []⟩)] ⟨2025, 3, 10⟩ ["Alice"] rfl
  exact ⟨h.1, (h.2 (by decide)).trans (by decide)⟩

/-- C10: a reachable book (built by the handlers from the empty book) stores a
February 29 birthday, and on a non-leap reference year the query raises
`ValueError` from `replace(year=...)` instead of returning a list. -/
theorem upcoming_c10 :
    runOps [.addContact "John" "1234567890", .addBirthday "John" "29.02.2024"]
        = [("John", ⟨"John", some ⟨2024, 2, 29⟩, ["1234567890"]⟩)]
    ∧ isLeapYear 2025 = false
    ∧ AddressBook.get_upcoming_birthdays
        (runOps [.addContact "John" "1234567890", .addBirthday "John" "29.02.2024"])
        ⟨2025, 3, 1⟩
      = .error "day is out of range for month" := by
  exact ⟨rfl, rfl, rfl⟩

/-! ### Validity invariant for reachable books -/

theorem parseBirthday_validDate (s : String) (dt : Date) (h : parseBirthday s = some dt) :
    validDate dt = true := by
  unfold parseBirthday parseBirthdayChars at h
  split at h
  · split at h
    · dsimp only at h
      split at h
      · rename_i h2
        obtain ⟨hy, hm1, hm2, hd1, hd2⟩ := h2
        cases h
        simp only [validDate, Bool.and_eq_true, decide_eq_true_eq]
        exact ⟨⟨⟨⟨hy, hm1⟩, hm2⟩, hd1⟩, hd2⟩
      · exact Option.noConfusion h
    · exact Option.noConfusion h
  · exact Option.noConfusion h

theorem validPhone_of_init_ok (phone p : String) (h : Phone.init phone = .ok p) :
    validPhone p = true := by
  unfold Phone.init at h
  split_ifs at h with hv
  cases h
  exact hv

theorem recordValid_add_phone_fst (r : Record) (phone : String)
    (hr : recordValid r = true) :
    recordValid (Record.add_phone r phone).1 = true := by
  unfold Record.add_phone
  cases hp : Phone.init phone with
  | ok p =>
    simp only [recordValid, Bool.and_eq_true] at hr ⊢
    refine ⟨?_, hr.2⟩
    rw [List.all_append]
    simp [hr.1, validPhone_of_init_ok phone p hp]
  | error e => exact hr

theorem recordValid_remove_phone (r : Record) (phone : String)
    (hr : recordValid r = true) :
    recordValid (Record.remove_phone r phone) = true := by
  simp only [recordValid, Record.remove_phone, Bool.and_eq_true, List.all_eq_true] at hr ⊢
  exact ⟨fun p hp => hr.1 p (List.mem_of_mem_filter hp), hr.2⟩

theorem recordValid_edit_phone_fst (r : Record) (old_phone new_phone : String)
    (hr : recordValid r = true) :
    recordValid (Record.edit_phone r old_phone new_phone).1 = true :=
  recordValid_add_phone_fst _ new_phone (recordValid_remove_phone r old_phone hr)

theorem recordValid_add_birthday_fst (r : Record) (birthday : String)
    (hr : recordValid r = true) :
    recordValid (Record.add_birthday r birthday).1 = true := by
  unfold Record.add_birthday
  cases hp : parseBirthday birthday with
  | some dt =>
    simp only [recordValid, Bool.and_eq_true] at hr ⊢
    exact ⟨hr.1, by simp [Option.all, parseBirthday_validDate birthday dt hp]⟩
  | none => exact hr

theorem bookValid_map_update (book : AddressBook) (name : String) (r : Record)
    (hb : bookValid book = true) (hr : recordValid r = true) :
    bookValid (book.map (fun p => if p.1 = name then (p.1, r) else p)) = true := by
  rw [bookValid, List.all_eq_true] at hb ⊢
  intro p hp
  rw [List.mem_map] at hp
  obtain ⟨q, hq, rfl⟩ := hp
  by_cases h : q.1 = name
  · simp [h, hr]
  · simp only [h, if_false]
    exact hb q hq

theorem bookValid_add_record (book : AddressBook) (r : Record)
    (hb : bookValid book = true) (hr : recordValid r = true) :
    bookValid (AddressBook.add_record book r) = true := by
  unfold AddressBook.add_record
  cases ha : book.any (fun p => p.1 == r.name) with
  | true =>
    simp only [if_true]
    exact bookValid_map_update book r.name r hb hr
  | false =>
    simp only [Bool.false_eq_true, if_false]
    rw [bookValid, List.all_append]
    simp only [Bool.and_eq_true]
    exact ⟨hb, by simp [hr]⟩

theorem bookValid_updateRecord (book : AddressBook) (name : String) (r : Record)
    (hb : bookValid book = true) (hr : recordValid r = true) :
    bookValid (updateRecord book name r) = true := by
  unfold updateRecord
  exact bookValid_map_update book name r hb hr

theorem bookValid_filter (book : AddressBook) (f : String × Record → Bool)
    (hb : bookValid book = true) :
    bookValid (book.filter f) = true := by
  rw [bookValid, List.all_eq_true] at hb ⊢
  exact fun p hp => hb p (List.mem_of_mem_filter hp)

theorem find_recordValid (book : AddressBook) (name : String) (r : Record)
    (hb : bookValid book = true) (h : AddressBook.find book name = some r) :
    recordValid r = true := by
  induction book with
  | nil => exact Option.noConfusion h
  | cons p book ih =>
    obtain ⟨k, v⟩ := p
    rw [AddressBook.find, lookup_cons] at h
    simp only [bookValid, List.all_cons, Bool.and_eq_true] at hb
    by_cases hk : name = k
    · rw [if_pos hk] at h
      cases h
      exact hb.1
    · rw [if_neg hk] at h
      exact ih hb.2 h

theorem bookValid_applyOp (book : AddressBook) (op : Op) (hb : bookValid book = true) :
    bookValid (applyOp book op) = true := by
  cases op with
  | addContact name phone =>
    show bookValid (add_contact book name phone).1 = true
    unfold add_contact
    cases hf : AddressBook.find book name with
    | none =>
      dsimp only
      cases hap : Record.add_phone ⟨name, none, []⟩ phone with
      | mk r2 e =>
        have hr2 : recordValid r2 = true := by
          have := recordValid_add_phone_fst ⟨name, none, []⟩ phone rfl
          rw [hap] at this
          exact this
        cases e with
        | none =>
          dsimp only
          exact bookValid_updateRecord _ name r2
            (bookValid_add_record book ⟨name, none, []⟩ hb rfl) hr2
        | some e =>
          dsimp only
          exact bookValid_add_record book ⟨name, none, []⟩ hb rfl
    | some r =>
      dsimp only
      cases hap : Record.add_phone r phone with
      | mk r2 e =>
        have hr : recordValid r = true := find_recordValid book name r hb hf
        have hr2 : recordValid r2 = true := by
          have := recordValid_add_phone_fst r phone hr
          rw [hap] at this
          exact this
        cases e with
        | none =>
          dsimp only
          exact bookValid_updateRecord book name r2 hb hr2
        | some e =>
          dsimp only
          exact hb
  | changePhone name old_phone new_phone =>
    show bookValid (change_phone book name old_phone new_phone).1 = true
    unfold change_phone
    cases hf : AddressBook.find book name with
    | none => exact hb
    | some r =>
      dsimp only
      cases hap : Record.edit_phone r old_phone new_phone with
      | mk r2 e =>
        have hr : recordValid r = true := find_recordValid book name r hb hf
        have hr2 : recordValid r2 = true := by
          have := recordValid_edit_phone_fst r old_phone new_phone hr
          rw [hap] at this
          exact this
        cases e with
        | none =>
          dsimp only
          exact bookValid_updateRecord book name r2 hb hr2
        | some e =>
          dsimp only
          exact bookValid_updateRecord book name r2 hb hr2
  | addBirthday name birthday =>
    show bookValid (add_birthday book name birthday).1 = true
    unfold add_birthday
    cases hf : AddressBook.find book name with
    | none => exact hb
    | some r =>
      dsimp only
      cases hap : Record.add_birthday r birthday with
      | mk r2 e =>
        have hr : recordValid r = true := find_recordValid book name r hb hf
        have hr2 : recordValid r2 = true := by
          have := recordValid_add_birthday_fst r birthday hr
          rw [hap] at this
          exact this
        cases e with
        | none =>
          dsimp only
          exact bookValid_updateRecord book name r2 hb hr2
        | some e =>
          dsimp only
          exact hb
  | deleteContact name =>
    show bookValid (AddressBook.delete book name).1 = true
    unfold AddressBook.delete
    cases ha : book.any (fun p => p.1 == name) with
    | true =>
      simp only [if_true]
      exact bookValid_filter book _ hb
    | false =>
      simp only [Bool.false_eq_true, if_false]
      exact hb

theorem bookValid_foldl (ops : List Op) :
    ∀ book : AddressBook, bookValid book = true → bookValid (ops.foldl applyOp book) = true := by
  induction ops with
  | nil => exact fun book hb => hb
  | cons op ops ih => exact fun book hb => ih _ (bookValid_applyOp book op hb)

/-- C4: after any sequence of operations starting from the empty book, every
stored phone is a valid ten-digit string and every stored birthday is a date
the `Birthday` parser can produce: malformed input is rejected at construction
and never stored. -/
theorem invariant_c4 : ∀ ops : List Op, bookValid (runOps ops) = true := by
  intro ops
  exact bookValid_foldl ops [] rfl

/-! ### Decimal rendering and parsing lemmas for the birthday round trip -/

theorem digitChar_isDigit : ∀ n, n < 10 → (digitChar n).isDigit = true := by decide

theorem digitChar_toNat : ∀ n, n < 10 → (digitChar n).toNat = 48 + n := by decide

theorem all_digit_no_dot (cs : List Char) (h : cs.all Char.isDigit = true) : '.' ∉ cs := by
  intro hm
  exact absurd (List.all_eq_true.mp h '.' hm) (by decide)

theorem natToCharsAux_all_digit : ∀ fuel n, (natToCharsAux fuel n).all Char.isDigit = true := by
  intro fuel
  induction fuel with
  | zero => intro n; rfl
  | succ fuel ih =>
    intro n
    rw [natToCharsAux]
    split
    · rename_i h10
      simp [digitChar_isDigit n h10]
    · rw [List.all_append]
      simp [ih (n / 10), digitChar_isDigit (n % 10) (Nat.mod_lt n (by omega))]

theorem charsToNat_append (cs : List Char) (c : Char) :
    charsToNat (cs ++ [c]) = 10 * charsToNat cs + (c.toNat - 48) := by
  unfold charsToNat
  rw [List.foldl_append]
  rfl

theorem charsToNat_natToCharsAux :
    ∀ fuel n, n < fuel → charsToNat (natToCharsAux fuel n) = n := by
  intro fuel
  induction fuel with
  | zero => intro n h; omega
  | succ fuel ih =>
    intro n h
    rw [natToCharsAux]
    split
    · rename_i h10
      have hc := digitChar_toNat n h10
      simp [charsToNat, hc]
    · rename_i h10
      have hdiv : n / 10 < fuel := by
        have h1 : n / 10 < n := Nat.div_lt_self (by omega) (by omega)
        omega
      rw [charsToNat_append, ih (n / 10) hdiv, digitChar_toNat (n % 10) (Nat.mod_lt n (by omega))]
      omega

theorem natToCharsAux_length_le :
    ∀ fuel k n, n < fuel → n < 10 ^ k → 1 ≤ k → (natToCharsAux fuel n).length ≤ k := by
  intro fuel
  induction fuel with
  | zero => intro k n h; omega
  | succ fuel ih =>
    intro k n h1 h2 h3
    rw [natToCharsAux]
    split
    · simpa using h3
    · rename_i h10
      have hk2 : 2 ≤ k := by
        by_contra hlt
        have hk1 : k = 1 := by omega
        subst hk1
        simp at h2
        omega
      have hpow : (10 : Nat) ^ k = 10 ^ (k - 1) * 10 := by
        rw [← pow_succ]
        congr 1
        omega
      have hdiv : n / 10 < 10 ^ (k - 1) := by
        rw [hpow] at h2
        exact Nat.div_lt_of_lt_mul (by omega)
      have hfuel : n / 10 < fuel := by
        have := Nat.div_lt_self (show 0 < n by omega) (show 1 < 10 by omega)
        omega
      have := ih (k - 1) (n / 10) hfuel hdiv (by omega)
      rw [List.length_append]
      simp only [List.length_cons, List.length_nil]
      omega

theorem natToCharsAux_length_ge :
    ∀ fuel k n, n < fuel → 10 ^ k ≤ n → k + 1 ≤ (natToCharsAux fuel n).length := by
  intro fuel
  induction fuel with
  | zero => intro k n h; omega
  | succ fuel ih =>
    intro k n h1 h2
    rw [natToCharsAux]
    split
    · rename_i h10
      have hk : k = 0 := by
        by_contra h0
        have h10k : (10 : Nat) ≤ 10 ^ k := by
          calc (10 : Nat) = 10 ^ 1 := (pow_one 10).symm
          _ ≤ 10 ^ k := Nat.pow_le_pow_right (by omega) (by omega)
        omega
      subst hk
      simp
    · rename_i h10
      cases k with
      | zero =>
        rw [List.length_append]
        simp only [List.length_cons, List.length_nil]
        omega
      | succ k2 =>
        have hdiv : 10 ^ k2 ≤ n / 10 := by
          rw [Nat.le_div_iff_mul_le (by omega : 0 < 10)]
          calc 10 ^ k2 * 10 = 10 ^ (k2 + 1) := (pow_succ 10 k2).symm
          _ ≤ n := h2
        have hfuel : n / 10 < fuel := by
          have := Nat.div_lt_self (show 0 < n by omega) (show 1 < 10 by omega)
          omega
        have := ih k2 (n / 10) hfuel hdiv
        rw [List.length_append]
        simp only [List.length_cons, List.length_nil]
        omega

theorem pad2Chars_facts :
    ∀ n, n < 100 → (pad2Chars n).length = 2 ∧ (pad2Chars n).all Char.isDigit = true ∧
      charsToNat (pad2Chars n) = n := by decide

theorem splitDots_no_dot (cs : List Char) (h : '.' ∉ cs) : splitDots cs = [cs] := by
  induction cs with
  | nil => rfl
  | cons c cs ih =>
    have hc : ¬ c = '.' := by
      intro hh
      exact h (by rw [hh]; exact List.mem_cons_self '.' cs)
    have h2 : '.' ∉ cs := fun hm => h (List.mem_cons_of_mem c hm)
    rw [splitDots, if_neg hc, ih h2]

theorem splitDots_append (a r : List Char) (h : '.' ∉ a) :
    splitDots (a ++ '.' :: r) = a :: splitDots r := by
  induction a with
  | nil => simp [splitDots]
  | cons c a ih =>
    have hc : ¬ c = '.' := by
      intro hh
      exact h (by rw [hh]; exact List.mem_cons_self '.' a)
    have h2 : '.' ∉ a := fun hm => h (List.mem_cons_of_mem c hm)
    rw [List.cons_append, splitDots, if_neg hc, ih h2]

theorem daysInMonth_le (y m : Nat) : daysInMonth y m ≤ 31 := by
  unfold daysInMonth
  split_ifs <;> omega

theorem parseBirthdayChars_eq (cs ds ms ys : List Char) (h : splitDots cs = [ds, ms, ys]) :
    parseBirthdayChars cs =
      (if 1 ≤ ds.length ∧ ds.length ≤ 2 ∧ ds.all Char.isDigit = true ∧
          1 ≤ ms.length ∧ ms.length ≤ 2 ∧ ms.all Char.isDigit = true ∧
          1 ≤ ys.length ∧ ys.length ≤ 4 ∧ ys.all Char.isDigit = true then
        (if 1 ≤ charsToNat ys ∧ 1 ≤ charsToNat ms ∧ charsToNat ms ≤ 12 ∧
            1 ≤ charsToNat ds ∧ charsToNat ds ≤ daysInMonth (charsToNat ys) (charsToNat ms) then
          some ⟨charsToNat ys, charsToNat ms, charsToNat ds⟩
        else none)
      else none) := by
  unfold parseBirthdayChars
  rw [h]

/-- C8 counterexample: `"30.02.2000"` has day 30 ∈ [1,31] and month 2 ∈ [1,12],
yet `Birthday` construction fails, because `strptime` rejects dates that do not
exist in the calendar. -/
theorem birthday_c8_counterexample :
    ((1 : Nat) ≤ 30 ∧ (30 : Nat) ≤ 31 ∧ (1 : Nat) ≤ 2 ∧ (2 : Nat) ≤ 12)
    ∧ parseBirthday "30.02.2000" = none := by
  exact ⟨by omega, rfl⟩

/-- C8 (amended): for every `DD.MM.YYYY` string denoting a real calendar date
(four-digit year, month in [1,12], day at most the month's length), `Birthday`
construction succeeds and the stored date formats back to the same ten-character
string. -/
theorem birthday_roundtrip_c8 (y m d : Nat) (hy1 : 1000 ≤ y) (hy2 : y ≤ 9999)
    (hm1 : 1 ≤ m) (hm2 : m ≤ 12) (hd1 : 1 ≤ d) (hd2 : d ≤ daysInMonth y m) :
    parseBirthday (formatDate ⟨y, m, d⟩) = some ⟨y, m, d⟩
    ∧ (formatDate ⟨y, m, d⟩).length = 10 := by
  have hd100 : d < 100 := by
    have := daysInMonth_le y m
    omega
  have hm100 : m < 100 := by omega
  obtain ⟨hdlen, hddig, hdval⟩ := pad2Chars_facts d hd100
  obtain ⟨hmlen, hmdig, hmval⟩ := pad2Chars_facts m hm100
  have hylen_le : (natToChars y).length ≤ 4 := by
    apply natToCharsAux_length_le (y + 1) 4 y (by omega)
    · norm_num
      omega
    · omega
  have hylen_ge : 4 ≤ (natToChars y).length := by
    rw [natToChars]
    have h := natToCharsAux_length_ge (y + 1) 3 y (by omega) (by norm_num; omega)
    omega
  have hydig : (natToChars y).all Char.isDigit = true := natToCharsAux_all_digit (y + 1) y
  have hyval : charsToNat (natToChars y) = y := charsToNat_natToCharsAux (y + 1) y (by omega)
  have hsplit : splitDots (pad2Chars d ++ '.' :: (pad2Chars m ++ '.' :: natToChars y))
      = [pad2Chars d, pad2Chars m, natToChars y] := by
    rw [splitDots_append _ _ (all_digit_no_dot _ hddig),
        splitDots_append _ _ (all_digit_no_dot _ hmdig),
        splitDots_no_dot _ (all_digit_no_dot _ hydig)]
  constructor
  · show parseBirthdayChars (pad2Chars d ++ '.' :: (pad2Chars m ++ '.' :: natToChars y))
        = some ⟨y, m, d⟩
    rw [parseBirthdayChars_eq _ _ _ _ hsplit]
    rw [if_pos ⟨by omega, by omega, hddig, by omega, by omega, hmdig,
          by omega, hylen_le, hydig⟩]
    rw [hdval, hmval, hyval]
    rw [if_pos ⟨by omega, hm1, hm2, hd1, hd2⟩]
  · show (pad2Chars d ++ '.' :: (pad2Chars m ++ '.' :: natToChars y)).length = 10
    rw [List.length_append]
    simp only [List.length_cons, List.length_append, hdlen, hmlen]
    omega

/-- Witness for C8 (amended): the leap date `29.02.2024` round-trips. -/
theorem birthday_roundtrip_c8_witness :
    ((1000 : Nat) ≤ 2024 ∧ (2024 : Nat) ≤ 9999 ∧ (1 : Nat) ≤ 2 ∧ (2 : Nat) ≤ 12
      ∧ (1 : Nat) ≤ 29 ∧ 29 ≤ daysInMonth 2024 2)
    ∧ (parseBirthday (formatDate ⟨2024, 2, 29⟩) = some ⟨2024, 2, 29⟩
        ∧ (formatDate ⟨2024, 2, 29⟩).length = 10) := by
  exact ⟨by decide,
    birthday_roundtrip_c8 2024 2 29 (by decide) (by decide) (by decide) (by decide)
      (by decide) (by decide)⟩
